import Mathlib

/-!
Shallow embedding of the Daily Dinchariya task-checklist core
(`src/index.tsx`): the CSV task-catalog parser (`parseMasterTasks`,
`parseDays`, `slug`), daily instance generation (`isEligibleToday`,
`generateTodayInstances`), the progress aggregation (`updateProgress`)
and the completion-toggle handlers (`handleTaskToggle`,
`handleSubtaskToggle`).

Modelling conventions:
* JavaScript strings are Lean `String`s; the TS `Day` union type is a
  string at runtime, so weekday tags are plain `String`s here.
* JavaScript number values produced by `parseInt` are modelled by
  `JsNum` (`nan` or an integer); the float division in the equal-split
  branch of `updateProgress` is modelled exactly over `Rat`.
* A JS record `Record<string, boolean>` is an insertion-ordered
  association list `List (String × Bool)` with unique keys;
  `Object.keys`/`Object.values` are the `map Prod.fst`/`map Prod.snd`
  projections and element assignment is `recSet` (update if the key is
  present, append otherwise — assignment to a missing key adds it).
-/

set_option autoImplicit false

namespace Dinchariya

/-- Whitespace test used by the embedding for JS `trim` / the regex
class in `slug`; the CSV data handled by the app is ASCII, where
JS and `Char.isWhitespace` agree. -/
def isJsWs (c : Char) : Bool := c.isWhitespace

/-- Characterwise model of `String.prototype.split(/\r\n|\n/)`:
split at each `\r\n` or lone `\n`; a lone `\r` does not split. -/
def splitLinesChars : List Char → List (List Char)
  | [] => [[]]
  | '\r' :: '\n' :: rest => [] :: splitLinesChars rest
  | '\n' :: rest => [] :: splitLinesChars rest
  | c :: rest =>
    match splitLinesChars rest with
    | [] => [[c]]
    | cur :: others => (c :: cur) :: others

/-- `csv.split(/\r\n|\n/)` from `parseMasterTasks`. -/
def splitLines (s : String) : List String :=
  (splitLinesChars s.data).map String.mk

/-- Characterwise model of `String.prototype.split(sep)` for a
one-character separator. -/
def splitCharList (sep : Char) : List Char → List (List Char)
  | [] => [[]]
  | c :: rest =>
    match splitCharList sep rest with
    | [] => if c = sep then [[], []] else [[c]]
    | cur :: others =>
      if c = sep then [] :: cur :: others else (c :: cur) :: others

/-- `line.split(',')` from `parseMasterTasks`. -/
def splitCommas (s : String) : List String :=
  (splitCharList ',' s.data).map String.mk

/-- JS `String.prototype.trim()`: drop whitespace at both ends. -/
def jsTrim (s : String) : String :=
  String.mk (((s.data.dropWhile isJsWs).reverse.dropWhile isJsWs).reverse)

/-- JS `String.prototype.toLowerCase()` on the ASCII data the app uses. -/
def jsToLower (s : String) : String := String.mk (s.data.map Char.toLower)

/-- The regex replace `\s+ → '_'` in `slug`, written with a flag
recording whether the previous character was whitespace: the first
character of each maximal whitespace run emits `'_'`, the rest of the
run emits nothing. -/
def collapseWsAux : Bool → List Char → List Char
  | _, [] => []
  | prevWs, c :: cs =>
    if isJsWs c then (if prevWs then [] else ['_']) ++ collapseWsAux true cs
    else c :: collapseWsAux false cs

/-- Each maximal run of whitespace becomes a single underscore. -/
def collapseWsChars (cs : List Char) : List Char := collapseWsAux false cs

/-- `slug(s)`: lowercase, collapse whitespace runs to `_`, then strip
every character outside `[a-z0-9_]` (the replace of `[^a-z0-9_]` by
the empty string). -/
def slug (s : String) : String :=
  String.mk ((collapseWsChars (s.data.map Char.toLower)).filter
    (fun c => c.isLower || c.isDigit || c == '_'))

/-- A JavaScript number as produced by `parseInt`: either `NaN` or an
integer value. -/
inductive JsNum where
  | nan : JsNum
  | num : Int → JsNum
deriving DecidableEq

/-- Value of a list of decimal digit characters. -/
def digitsToNat (ds : List Char) : Nat :=
  ds.foldl (fun a c => a * 10 + (c.toNat - 48)) 0

/-- ECMAScript `parseInt(s, 10)`: skip leading whitespace, read an
optional sign and then the maximal run of decimal digits; `NaN` when
no digit is found. -/
def jsParseInt (s : String) : JsNum :=
  let cs := s.data.dropWhile isJsWs
  let signed : Int × List Char :=
    match cs with
    | '-' :: r => (-1, r)
    | '+' :: r => (1, r)
    | _ => (1, cs)
  let ds := signed.2.takeWhile Char.isDigit
  if ds.isEmpty then JsNum.nan else JsNum.num (signed.1 * (digitsToNat ds : Int))

/-- JS `x || 0` on a number: `NaN` (and `0` itself) coerce to `0`. -/
def jsOr0 : JsNum → Int
  | JsNum.nan => 0
  | JsNum.num n => n

/-- JS `x || 0` where `x : number | undefined`. -/
def jsValOr0 : Option JsNum → Int
  | none => 0
  | some j => jsOr0 j

/-- `parseInt(points, 10) || 0` from `parseMasterTasks`. -/
def parsePoints (s : String) : Int := jsOr0 (jsParseInt s)

/-- `subPoints ? parseInt(subPoints, 10) : undefined` from
`parseMasterTasks`: an empty field is `undefined`; a non-empty field is
whatever `parseInt` produces, including `NaN`. -/
def parseSubPoints (s : String) : Option JsNum :=
  if s = "" then none else some (jsParseInt s)

/-- The `Subtask` interface. -/
structure Subtask where
  id : String
  name : String
  subPoints : Option JsNum
deriving DecidableEq

/-- The `Task` interface; `daysOfWeek` holds weekday tag strings
(`Day` is a string union type in the source). -/
structure Task where
  id : String
  name : String
  points : Int
  timeStart : Option String
  timeEnd : Option String
  daysOfWeek : List String
  subtasks : List Subtask
  active : Bool
deriving DecidableEq

/-- The `TaskInstance` interface; `subtaskCompletion` is the JS record
modelled as an insertion-ordered association list. -/
structure TaskInstance where
  id : String
  task : Task
  completed : Bool
  subtaskCompletion : List (String × Bool)
deriving DecidableEq

/-- Record read `m[k]` used in a boolean position: a missing key is
`undefined`, which is falsy. -/
def recGet (m : List (String × Bool)) (k : String) : Bool :=
  ((m.find? (fun p => p.1 == k)).map Prod.snd).getD false

/-- Record assignment `m[k] = v`: overwrite the entry when the key is
present, append a new entry otherwise. -/
def recSet (m : List (String × Bool)) (k : String) (v : Bool) :
    List (String × Bool) :=
  if m.any (fun p => p.1 == k) then
    m.map (fun p => if p.1 == k then (k, v) else p)
  else m ++ [(k, v)]

/-- `Object.values(m).filter(Boolean).length`. -/
def trueCount (m : List (String × Bool)) : Nat :=
  ((m.map Prod.snd).filter (fun b => b)).length

/-- The canonical weekday tags, the `allDays` literal of `parseDays`. -/
def allDays : List String := ["Mon", "Tue", "Wed", "Thu", "Fri", "Sat", "Sun"]

/-- `parseDays(dayStr)`: empty or `all` (case-insensitively) gives all
seven tags, `weekdays` Mon–Fri, `weekend` Sat–Sun; otherwise split on
commas, trim each token, cast, and keep only tokens in `allDays`. -/
def parseDays (dayStr : String) : List String :=
  if dayStr = "" || jsToLower dayStr == "all" then allDays
  else if jsToLower dayStr == "weekdays" then ["Mon", "Tue", "Wed", "Thu", "Fri"]
  else if jsToLower dayStr == "weekend" then ["Sat", "Sun"]
  else ((splitCommas dayStr).map jsTrim).filter (fun d => allDays.contains d)

/-- `c.replace(/"/g, '').trim()` applied to each raw column. -/
def cleanField (c : String) : String :=
  jsTrim (String.mk (c.data.filter (fun ch => ch ≠ '"')))

/-- `line.split(',').map(c => c.replace(/"/g, '').trim())`. -/
def parseCols (line : String) : List String := (splitCommas line).map cleanField

/-- Column `i` of a row; destructuring past the end of the array gives
`undefined`, which behaves as the empty string at every use site. -/
def colOf (line : String) (i : Nat) : String := (parseCols line).getD i ""

/-- The parent-task object built by a task row of `parseMasterTasks`
(its `subtasks` start empty and are filled by later subtask rows). -/
def mkTask (line : String) : Task :=
  { id := slug (colOf line 0)
    name := colOf line 0
    points := parsePoints (colOf line 2)
    timeStart := if colOf line 4 = "" then none else some (colOf line 4)
    timeEnd := if colOf line 5 = "" then none else some (colOf line 5)
    daysOfWeek := parseDays (colOf line 6)
    subtasks := []
    active := colOf line 11 == "TRUE" }

/-- The subtask object built by a subtask row, with the id derived from
the current task's name: `slug(currentTask.name + "_" + subtaskName)`. -/
def mkSubtask (parentName : String) (line : String) : Subtask :=
  { id := slug (parentName ++ "_" ++ colOf line 1)
    name := colOf line 1
    subPoints := parseSubPoints (colOf line 3) }

/-- One iteration of the `lines.forEach` loop of `parseMasterTasks`.
The accumulator is `masterTasks` in reverse order; `currentTask` is the
most recently pushed task, i.e. the head of the accumulator (the push
happens right after every assignment to `currentTask`, so the variable
always aliases the last list element, and it is `null` exactly when the
list is empty). -/
def parseStep (acc : List Task) (line : String) : List Task :=
  if jsTrim line = "" then acc
  else if colOf line 0 ≠ "" then mkTask line :: acc
  else if colOf line 1 ≠ "" then
    match acc with
    | [] => acc
    | t :: rest => { t with subtasks := t.subtasks ++ [mkSubtask t.name line] } :: rest
  else acc

/-- The data rows: every line after the header (`.slice(1)`). -/
def dataLines (csv : String) : List String := (splitLines csv).drop 1

/-- `parseMasterTasks(csv)` as a function from the raw text to the
resulting `masterTasks` list (the method starts from an empty list). -/
def parseMasterTasks (csv : String) : List Task :=
  ((dataLines csv).foldl parseStep []).reverse

/-- `isEligibleToday(task, today)`. Only `today.getDay()` is consulted,
so the date argument is modelled by that value (`0 = Sunday`). -/
def dayMap : List String := ["Sun", "Mon", "Tue", "Wed", "Thu", "Fri", "Sat"]

/-- The weekday tag of a date whose `getDay()` is `d`. -/
def weekdayTag (d : Fin 7) : String := dayMap.getD d.val ""

/-- `isEligibleToday`: inactive tasks are never eligible; otherwise the
date's weekday tag must occur in `daysOfWeek`. -/
def isEligibleToday (task : Task) (getDay : Fin 7) : Bool :=
  task.active && task.daysOfWeek.contains (weekdayTag getDay)

/-- The `subtasks.reduce((acc, sub) => { acc[sub.id] = false; ... }, {})`
initialisation of `subtaskCompletion`. -/
def initCompletion (subs : List Subtask) : List (String × Bool) :=
  subs.foldl (fun acc sub => recSet acc sub.id false) []

/-- `generateTodayInstances` as a function of the catalog and the
date's `getDay()` value. -/
def generateTodayInstances (masterTasks : List Task) (getDay : Fin 7) :
    List TaskInstance :=
  (masterTasks.filter (fun task => isEligibleToday task getDay)).map
    (fun task =>
      { id := task.id
        task := task
        completed := false
        subtaskCompletion := initCompletion task.subtasks })

/-- The `earnedSubPoints` computation of `updateProgress` for one
not-yet-completed instance that has subtasks: if some subtask defines
`subPoints`, accumulate `sub.subPoints || 0` over the subtasks whose
completion flag is set; otherwise multiply the number of `true` values
in the completion record by `points / subtasks.length` (exact division
over `Rat`, standing for the JS float division). -/
def earnedSubPoints (inst : TaskInstance) : Rat :=
  if inst.task.subtasks.any (fun s => s.subPoints.isSome) then
    ((inst.task.subtasks.foldl
      (fun e sub => if recGet inst.subtaskCompletion sub.id
                    then e + jsValOr0 sub.subPoints else e) (0 : Int) : Int) : Rat)
  else if 0 < inst.task.subtasks.length then
    (trueCount inst.subtaskCompletion : Rat) *
      ((inst.task.points : Rat) / (inst.task.subtasks.length : Rat))
  else 0

/-- The body of the `todayInstances.forEach` loop of `updateProgress`,
threading the `currentPoints` and `totalPoints` accumulators. -/
def progressAccum (acc : Rat × Int) (inst : TaskInstance) : Rat × Int :=
  let total := acc.2 + inst.task.points
  if inst.completed then (acc.1 + (inst.task.points : Rat), total)
  else if 0 < inst.task.subtasks.length then
    (acc.1 + min (earnedSubPoints inst) ((inst.task.points : Rat)), total)
  else (acc.1, total)

/-- The aggregation outputs of `updateProgress`. -/
structure Progress where
  currentPoints : Rat
  totalPoints : Int
  percent : Rat
deriving DecidableEq

/-- `updateProgress` on an instance list: fold the per-instance
accumulation and derive `progressPercent`, guarding the zero total. -/
def updateProgress (insts : List TaskInstance) : Progress :=
  let ct := insts.foldl progressAccum ((0 : Rat), (0 : Int))
  { currentPoints := ct.1
    totalPoints := ct.2
    percent := if 0 < ct.2 then ct.1 / (ct.2 : Rat) else 0 }

/-- The mutation `handleTaskToggle` performs on the found instance:
set `completed`, then assign the same boolean to every existing key of
`subtaskCompletion`. -/
def toggleTaskInst (inst : TaskInstance) (isChecked : Bool) : TaskInstance :=
  { inst with
    completed := isChecked
    subtaskCompletion := inst.subtaskCompletion.map (fun p => (p.1, isChecked)) }

/-- The mutation `handleSubtaskToggle` performs on the found instance:
assign the one record entry (adding the key when absent), then set
`completed` to `Object.values(...).every(Boolean)`. -/
def toggleSubtaskInst (inst : TaskInstance) (subtaskId : String)
    (isChecked : Bool) : TaskInstance :=
  let m := recSet inst.subtaskCompletion subtaskId isChecked
  { inst with subtaskCompletion := m, completed := m.all (fun p => p.2) }

/-- Replace the first element satisfying `p` by its image under `f`;
the rest of the list is untouched. This is `find` followed by in-place
mutation of the found element. -/
def updateFirst {α : Type} (p : α → Bool) (f : α → α) : List α → List α
  | [] => []
  | x :: xs => if p x then f x :: xs else x :: updateFirst p f xs

/-- `handleTaskToggle(instanceId, isChecked)` acting on the
`todayInstances` list: `find` the first instance with that id (doing
nothing when there is none) and apply the parent-toggle mutation. -/
def handleTaskToggle (insts : List TaskInstance) (instanceId : String)
    (isChecked : Bool) : List TaskInstance :=
  updateFirst (fun i => i.id == instanceId)
    (fun i => toggleTaskInst i isChecked) insts

/-- `handleSubtaskToggle(instanceId, subtaskId, isChecked)` acting on
the `todayInstances` list. -/
def handleSubtaskToggle (insts : List TaskInstance) (instanceId : String)
    (subtaskId : String) (isChecked : Bool) : List TaskInstance :=
  updateFirst (fun i => i.id == instanceId)
    (fun i => toggleSubtaskInst i subtaskId isChecked) insts

/-! Specification-side definitions, written from the spec's / claims'
wording, to be compared with the source-derived functions above. -/

/-- A data row that starts a new task: non-blank with a non-empty
task-name field. -/
def isTaskRowB (line : String) : Bool := jsTrim line != "" && colOf line 0 != ""

/-- A data row that attaches a subtask: non-blank, empty task-name,
non-empty subtask-name. -/
def isSubtaskRowB (line : String) : Bool :=
  jsTrim line != "" && colOf line 0 == "" && colOf line 1 != ""

/-- Append subtasks to a task. -/
def addSubs (t : Task) (subs : List Subtask) : Task :=
  { t with subtasks := t.subtasks ++ subs }

/-- The subtasks contributed by the subtask rows of a row segment. -/
def subtasksFor (parentName : String) (lines : List String) : List Subtask :=
  lines.filterMap (fun l =>
    if isSubtaskRowB l then some (mkSubtask parentName l) else none)

/-- The parse result described by the claim: one task per task row in
source order, each carrying the subtask rows that follow it up to the
next task row; all other rows are skipped. -/
def specParse : List String → List Task
  | [] => []
  | l :: rest =>
    if isTaskRowB l then
      addSubs (mkTask l)
        (subtasksFor (mkTask l).name (rest.takeWhile (fun x => !isTaskRowB x)))
        :: specParse rest
    else specParse rest

/-- The per-instance earned contribution exactly as C1's amended text
describes it: full points when completed; with subtasks, either the
clamped sum of the numeric `subPoints` of subtasks whose completion
flag is set (an undefined or non-numeric `subPoints` contributing 0),
or the clamped equal split scaled by the number of `true` entries of
the completion record; 0 otherwise. -/
def claimEarned (inst : TaskInstance) : Rat :=
  if inst.completed then (inst.task.points : Rat)
  else if inst.task.subtasks = [] then 0
  else if inst.task.subtasks.any (fun s => s.subPoints.isSome) then
    min ((inst.task.subtasks.map (fun s =>
        if recGet inst.subtaskCompletion s.id
        then (jsValOr0 s.subPoints : Rat) else 0)).sum)
      ((inst.task.points : Rat))
  else
    min ((trueCount inst.subtaskCompletion : Rat) *
        ((inst.task.points : Rat) / (inst.task.subtasks.length : Rat)))
      ((inst.task.points : Rat))

/-- The per-instance earned contribution as C1 originally words its
equal-split branch: the number of *subtasks* whose completion flag is
true (rather than the number of `true` entries of the completion
record) times the equal split. -/
def claimEarnedOrig (inst : TaskInstance) : Rat :=
  if inst.completed then (inst.task.points : Rat)
  else if inst.task.subtasks = [] then 0
  else if inst.task.subtasks.any (fun s => s.subPoints.isSome) then
    min ((inst.task.subtasks.map (fun s =>
        if recGet inst.subtaskCompletion s.id
        then (jsValOr0 s.subPoints : Rat) else 0)).sum)
      ((inst.task.points : Rat))
  else
    min (((inst.task.subtasks.countP
          (fun s => recGet inst.subtaskCompletion s.id)) : Rat) *
        ((inst.task.points : Rat) / (inst.task.subtasks.length : Rat)))
      ((inst.task.points : Rat))

/-- C8's invariant: the keys of `subtaskCompletion` are exactly the ids
of the task's subtasks (as sets). -/
def keyInv (inst : TaskInstance) : Prop :=
  (∀ k ∈ inst.subtaskCompletion.map Prod.fst, k ∈ inst.task.subtasks.map Subtask.id) ∧
  (∀ k ∈ inst.task.subtasks.map Subtask.id, k ∈ inst.subtaskCompletion.map Prod.fst)

instance (inst : TaskInstance) : Decidable (keyInv inst) := by
  unfold keyInv; infer_instance

/-! Concrete data used by witnesses and counterexamples. -/

/-- A subtask without `subPoints`. -/
def subA : Subtask := ⟨"a", "A", none⟩

/-- A subtask worth 4 sub-points. -/
def subB : Subtask := ⟨"b", "B", some (JsNum.num 4)⟩

/-- A 10-point weekend task with two subtasks. -/
def wTask : Task := ⟨"t1", "T1", 10, none, none, ["Sat", "Sun"], [subA, subB], true⟩

/-- A fresh instance of `wTask`. -/
def wInst : TaskInstance := ⟨"t1", wTask, false, [("a", false), ("b", false)]⟩

/-- An inactive task scheduled on Saturdays. -/
def inactiveTask : Task := ⟨"t2", "T2", 3, none, none, ["Sat"], [], false⟩

/-- Two subtasks whose names normalise to the same id. -/
def dupSubA1 : Subtask := ⟨"a", "A1", none⟩

/-- Second subtask with the same id as `dupSubA1`. -/
def dupSubA2 : Subtask := ⟨"a", "A2", none⟩

/-- A 10-point task whose two subtasks share one id. -/
def dupTask : Task := ⟨"t", "T", 10, none, none, ["Mon"], [dupSubA1, dupSubA2], true⟩

/-- An instance of `dupTask` whose single record entry is checked. -/
def dupInst : TaskInstance := ⟨"t", dupTask, false, [("a", true)]⟩

/-- An unchecked instance of `dupTask` (same id as `dupInstDone`). -/
def dupInstFresh : TaskInstance := ⟨"t", dupTask, false, [("a", false)]⟩

/-- A completed instance of `dupTask`, sharing the id `"t"`. -/
def dupInstDone : TaskInstance := ⟨"t", dupTask, true, [("a", true)]⟩

/-- A task with zero subtasks. -/
def zeroTask : Task := ⟨"z", "Z", 5, none, none, ["Mon"], [], true⟩

/-- A fresh instance of `zeroTask`: empty completion record. -/
def zeroInst : TaskInstance := ⟨"z", zeroTask, false, []⟩

/-- A completed two-point instance without subtasks. -/
def doneInst : TaskInstance := ⟨"d", ⟨"d", "D", 2, none, none, ["Mon"], [], true⟩, true, []⟩

/-! Helper lemmas about the record operations. -/

/-- The assigned entry is present in the record after `recSet`. -/
theorem mem_recSet_self (m : List (String × Bool)) (k : String) (v : Bool) :
    (k, v) ∈ recSet m k v := by
  unfold recSet
  split
  · next h =>
    rw [List.any_eq_true] at h
    obtain ⟨p, hp, hpk⟩ := h
    refine List.mem_map.mpr ⟨p, hp, ?_⟩
    simp [hpk]
  · exact List.mem_append.mpr (Or.inr (by simp))

/-- Entries of `recSet m k v` come from `m` or are the assigned pair. -/
theorem mem_recSet {m : List (String × Bool)} {k : String} {v : Bool}
    {p : String × Bool} (hp : p ∈ recSet m k v) : p ∈ m ∨ p = (k, v) := by
  unfold recSet at hp
  split at hp
  · obtain ⟨q, hq, hqp⟩ := List.mem_map.mp hp
    by_cases h : q.1 == k
    · right; rw [if_pos h] at hqp; exact hqp.symm
    · left; rw [if_neg h] at hqp; exact hqp ▸ hq
  · rcases List.mem_append.mp hp with h | h
    · exact Or.inl h
    · right; simpa using h

/-- A record containing a `false` entry fails `every(Boolean)`. -/
theorem all_eq_false_of_mem {m : List (String × Bool)} {k : String}
    (h : (k, false) ∈ m) : m.all (fun p => p.2) = false := by
  rw [← Bool.not_eq_true, List.all_eq_true]
  intro hall
  have := hall _ h
  simp at this

/-- `recSet` keys: unchanged when the key is present, extended by the
key otherwise. -/
theorem map_fst_recSet (m : List (String × Bool)) (k : String) (v : Bool) :
    (recSet m k v).map Prod.fst =
      if m.any (fun p => p.1 == k) then m.map Prod.fst
      else m.map Prod.fst ++ [k] := by
  by_cases h : m.any (fun p => p.1 == k)
  · rw [if_pos h]
    simp only [recSet, if_pos h, List.map_map]
    refine List.map_congr_left (fun p _ => ?_)
    by_cases hp : p.1 == k
    · simp only [Function.comp_apply, if_pos hp]
      exact (beq_iff_eq.mp hp).symm
    · simp only [Function.comp_apply, if_neg hp]
  · rw [if_neg h]
    simp only [recSet, if_neg h, List.map_append, List.map_cons, List.map_nil]

/-- Key membership after `recSet`. -/
theorem mem_keys_recSet {m : List (String × Bool)} {k k' : String} {v : Bool} :
    k ∈ (recSet m k' v).map Prod.fst ↔ k ∈ m.map Prod.fst ∨ k = k' := by
  rw [map_fst_recSet]
  by_cases h : m.any (fun p => p.1 == k')
  · rw [if_pos h]
    constructor
    · exact Or.inl
    · rintro (hk | rfl)
      · exact hk
      · rw [List.any_eq_true] at h
        obtain ⟨p, hp, hpk⟩ := h
        exact List.mem_map.mpr ⟨p, hp, beq_iff_eq.mp hpk⟩
  · rw [if_neg h]
    simp [List.mem_append]


/-- Keys are unchanged by the parent toggle. -/
theorem map_fst_toggleTaskInst (inst : TaskInstance) (c : Bool) :
    (toggleTaskInst inst c).subtaskCompletion.map Prod.fst =
      inst.subtaskCompletion.map Prod.fst := by
  simp only [toggleTaskInst, List.map_map]
  rfl

/-- Keys of the initial completion record, via the fold. -/
theorem mem_keys_foldl_recSet (subs : List Subtask)
    (acc : List (String × Bool)) (k : String) :
    (k ∈ (subs.foldl (fun a s => recSet a s.id false) acc).map Prod.fst) ↔
      (k ∈ acc.map Prod.fst ∨ k ∈ subs.map Subtask.id) := by
  induction subs generalizing acc with
  | nil => simp
  | cons s rest ih =>
    rw [List.foldl_cons, ih, mem_keys_recSet]
    simp [or_assoc]

/-- The keys of a fresh completion record are the subtask ids. -/
theorem mem_keys_initCompletion (subs : List Subtask) (k : String) :
    k ∈ (initCompletion subs).map Prod.fst ↔ k ∈ subs.map Subtask.id := by
  rw [initCompletion, mem_keys_foldl_recSet]
  simp

/-- C4: toggling the parent on forces `completed` and every record
entry to `true`; toggling any one subtask off afterwards recomputes
`completed` as the conjunction of the entries, which is then `false`. -/
theorem C4_toggle_round_trip (inst : TaskInstance) (s : Subtask)
    (_hs : s ∈ inst.task.subtasks) :
    (toggleTaskInst inst true).completed = true ∧
    (∀ p ∈ (toggleTaskInst inst true).subtaskCompletion, p.2 = true) ∧
    (toggleSubtaskInst (toggleTaskInst inst true) s.id false).completed = false := by
  refine ⟨rfl, ?_, ?_⟩
  · intro p hp
    obtain ⟨q, _, rfl⟩ := List.mem_map.mp hp
    rfl
  · exact all_eq_false_of_mem
      (mem_recSet_self ((toggleTaskInst inst true).subtaskCompletion) s.id false)

theorem C4_toggle_round_trip_witness :
    subA ∈ wInst.task.subtasks ∧
    (toggleSubtaskInst (toggleTaskInst wInst true) subA.id false).completed = false :=
  ⟨by decide, (C4_toggle_round_trip wInst subA (by decide)).2.2⟩

/-- C9 counterexample: on an instance whose task has no subtasks, the
subtask toggle is not a no-op — the record assignment inserts the
requested key and the `every(Boolean)` recomputation then sets
`completed` from the inserted value alone. -/
theorem C9_counterexample :
    toggleSubtaskInst zeroInst "x" true ≠ zeroInst ∧
    (toggleSubtaskInst zeroInst "x" true).completed = true ∧
    zeroInst.completed = false := by
  refine ⟨by decide, by decide, rfl⟩

/-- C9 amended: on an instance whose task has zero subtasks and whose
completion record is empty (as instance creation makes it), the
subtask toggle inserts the requested key with the requested value and
sets `completed` to that value; the `task` field is untouched. -/
theorem C9_zero_subtasks (inst : TaskInstance) (k : String) (c : Bool)
    (_hsubs : inst.task.subtasks = []) (hmap : inst.subtaskCompletion = []) :
    (toggleSubtaskInst inst k c).subtaskCompletion = [(k, c)] ∧
    (toggleSubtaskInst inst k c).completed = c ∧
    (toggleSubtaskInst inst k c).task = inst.task := by
  refine ⟨?_, ?_, rfl⟩
  · simp [toggleSubtaskInst, recSet, hmap]
  · simp [toggleSubtaskInst, recSet, hmap]

theorem C9_zero_subtasks_witness :
    zeroInst.task.subtasks = [] ∧ zeroInst.subtaskCompletion = [] ∧
    (toggleSubtaskInst zeroInst "x" true).completed = true :=
  ⟨rfl, rfl, (C9_zero_subtasks zeroInst "x" true rfl rfl).2.1⟩

/-- C8 counterexample: a subtask toggle addressed to an id that is not
one of the task's subtask ids inserts that id as a new record key, so
the key invariant is not preserved by `toggleSubtask` with arbitrary
arguments. -/
theorem C8_counterexample :
    keyInv wInst ∧ ¬ keyInv (toggleSubtaskInst wInst "c" true) := by
  exact ⟨by decide, by decide⟩

/-- C8 amended: the key invariant (record keys are exactly the subtask
ids, as sets) holds for every generated instance, and is preserved by
the parent toggle with any argument and by the subtask toggle whenever
the addressed id is one of the task's subtask ids — the only ids the
rendering layer ever passes; an id outside the subtasks would instead
be inserted as a fresh key. -/
theorem C8_key_invariant :
    (∀ (tasks : List Task) (d : Fin 7) (i : TaskInstance),
        i ∈ generateTodayInstances tasks d → keyInv i) ∧
    (∀ (inst : TaskInstance) (c : Bool), keyInv inst →
        keyInv (toggleTaskInst inst c)) ∧
    (∀ (inst : TaskInstance) (sid : String) (c : Bool), keyInv inst →
        sid ∈ inst.task.subtasks.map Subtask.id →
        keyInv (toggleSubtaskInst inst sid c)) := by
  refine ⟨?_, ?_, ?_⟩
  · intro tasks d i hi
    simp only [generateTodayInstances, List.mem_map] at hi
    obtain ⟨t, _, rfl⟩ := hi
    exact ⟨fun k hk => (mem_keys_initCompletion _ k).mp hk,
           fun k hk => (mem_keys_initCompletion _ k).mpr hk⟩
  · intro inst c hinv
    unfold keyInv at hinv ⊢
    rw [map_fst_toggleTaskInst]
    exact hinv
  · intro inst sid c hinv hsid
    unfold keyInv at hinv ⊢
    constructor
    · intro k hk
      rcases mem_keys_recSet.mp hk with hk' | rfl
      · exact hinv.1 k hk'
      · exact hsid
    · intro k hk
      exact mem_keys_recSet.mpr (Or.inl (hinv.2 k hk))

theorem C8_key_invariant_witness :
    keyInv wInst ∧ keyInv (toggleSubtaskInst wInst "a" true) :=
  ⟨by decide, C8_key_invariant.2.2 wInst "a" true (by decide) (by decide)⟩

/-- `updateFirst` on a list whose first match is `a`: the prefix and
the suffix (later duplicates included) are untouched. -/
theorem updateFirst_append {α : Type} (p : α → Bool) (f : α → α)
    (pre : List α) (a : α) (post : List α)
    (hpre : ∀ b ∈ pre, p b = false) (ha : p a = true) :
    updateFirst p f (pre ++ a :: post) = pre ++ f a :: post := by
  induction pre with
  | nil => simp [updateFirst, ha]
  | cons x xs ih =>
    have hx := hpre x (by simp)
    simp only [List.cons_append, updateFirst, List.append_eq, hx]
    rw [if_neg (by simp [hx])]
    rw [ih (fun b hb => hpre b (by simp [hb]))]

/-- C10: both toggle handlers locate their target with `find`, i.e. as
the first instance in list order whose id matches; every instance
after that first match — in particular a later duplicate of the same
id — is returned unchanged. -/
theorem C10_first_match_toggled (pre : List TaskInstance) (a : TaskInstance)
    (post : List TaskInstance) (iid : String) (c : Bool) (sid : String)
    (ha : a.id = iid) (hpre : ∀ b ∈ pre, b.id ≠ iid) :
    handleTaskToggle (pre ++ a :: post) iid c =
      pre ++ toggleTaskInst a c :: post ∧
    handleSubtaskToggle (pre ++ a :: post) iid sid c =
      pre ++ toggleSubtaskInst a sid c :: post := by
  have hpre' : ∀ b ∈ pre, (b.id == iid) = false := by
    intro b hb
    simpa using hpre b hb
  have ha' : (a.id == iid) = true := by simpa using ha
  exact ⟨updateFirst_append _ _ pre a post hpre' ha',
         updateFirst_append _ _ pre a post hpre' ha'⟩

theorem C10_first_match_toggled_witness :
    handleTaskToggle [dupInstFresh, dupInstDone] "t" true =
      [toggleTaskInst dupInstFresh true, dupInstDone] :=
  (C10_first_match_toggled [] dupInstFresh [dupInstDone] "t" true "a" rfl
    (by simp)).1

/-- C5: day-token decoding. Empty or any-case `all` gives all seven
tags; any-case `weekdays` gives Mon–Fri; any-case `weekend` gives
Sat–Sun; any other value is split on commas, trimmed, and filtered to
the canonical tag list, so every produced tag is canonical. -/
theorem C5_parseDays_decoding (s : String) :
    ((s = "" ∨ jsToLower s = "all") → parseDays s = allDays) ∧
    (jsToLower s = "weekdays" →
      parseDays s = ["Mon", "Tue", "Wed", "Thu", "Fri"]) ∧
    (jsToLower s = "weekend" → parseDays s = ["Sat", "Sun"]) ∧
    ((s ≠ "" ∧ jsToLower s ≠ "all" ∧ jsToLower s ≠ "weekdays" ∧
        jsToLower s ≠ "weekend") →
      parseDays s =
        ((splitCommas s).map jsTrim).filter (fun d => allDays.contains d)) ∧
    (∀ d ∈ parseDays s, d ∈ allDays) := by
  refine ⟨?_, ?_, ?_, ?_, ?_⟩
  · rintro (rfl | h)
    · simp [parseDays]
    · simp [parseDays, h]
  · intro h
    have hne : s ≠ "" := fun hs => by rw [hs] at h; exact absurd h (by decide)
    simp [parseDays, h, hne]
  · intro h
    have hne : s ≠ "" := fun hs => by rw [hs] at h; exact absurd h (by decide)
    simp [parseDays, h, hne]
  · rintro ⟨h0, h1, h2, h3⟩
    simp [parseDays, h0, h1, h2, h3]
  · intro d hd
    rw [parseDays] at hd
    split_ifs at hd with hall hwd hwe
    · exact hd
    · fin_cases hd <;> decide
    · fin_cases hd <;> decide
    · exact List.elem_iff.mp (List.mem_filter.mp hd).2

theorem C5_parseDays_decoding_witness :
    parseDays "Weekend" = ["Sat", "Sun"] ∧ parseDays "ALL" = allDays :=
  ⟨(C5_parseDays_decoding "Weekend").2.2.1 (by decide),
   (C5_parseDays_decoding "ALL").1 (Or.inr (by decide))⟩

/-- Values of the fold building the initial completion record stay
`false`. -/
theorem foldl_recSet_false (subs : List Subtask)
    (acc : List (String × Bool)) (hacc : ∀ p ∈ acc, p.2 = false) :
    ∀ p ∈ subs.foldl (fun a s => recSet a s.id false) acc, p.2 = false := by
  induction subs generalizing acc with
  | nil => exact hacc
  | cons s rest ih =>
    rw [List.foldl_cons]
    refine ih _ (fun p hp => ?_)
    rcases mem_recSet hp with h | h
    · exact hacc p h
    · rw [h]

/-- Every value of a fresh completion record is `false`. -/
theorem mem_initCompletion_false (subs : List Subtask)
    (p : String × Bool) (hp : p ∈ initCompletion subs) : p.2 = false :=
  foldl_recSet_false subs [] (by simp) p hp

/-- C3: instance generation. The generated instances carry, in catalog
order, exactly the tasks that are active and scheduled on the date's
weekday tag; an instance exists for a catalog task iff that task is
eligible; and every generated instance starts uncompleted with its id
copied from the task and every subtask-completion entry `false`. -/
theorem C3_generate_instances (tasks : List Task) (d : Fin 7) :
    ((generateTodayInstances tasks d).map TaskInstance.task =
        tasks.filter (fun t => isEligibleToday t d)) ∧
    (∀ t ∈ tasks, ((∃ i ∈ generateTodayInstances tasks d, i.task = t) ↔
        (t.active = true ∧ weekdayTag d ∈ t.daysOfWeek))) ∧
    (∀ i ∈ generateTodayInstances tasks d,
        i.id = i.task.id ∧ i.completed = false ∧
        ∀ p ∈ i.subtaskCompletion, p.2 = false) := by
  refine ⟨?_, ?_, ?_⟩
  · rw [generateTodayInstances, List.map_map]
    exact List.map_id _
  · intro t ht
    constructor
    · rintro ⟨i, hi, rfl⟩
      simp only [generateTodayInstances, List.mem_map] at hi
      obtain ⟨u, hu, rfl⟩ := hi
      have helig := (List.mem_filter.mp hu).2
      rw [isEligibleToday, Bool.and_eq_true] at helig
      exact ⟨helig.1, List.elem_iff.mp helig.2⟩
    · rintro ⟨hact, hmem⟩
      refine ⟨⟨t.id, t, false, initCompletion t.subtasks⟩, ?_, rfl⟩
      simp only [generateTodayInstances, List.mem_map]
      refine ⟨t, List.mem_filter.mpr ⟨ht, ?_⟩, rfl⟩
      rw [isEligibleToday, Bool.and_eq_true]
      exact ⟨hact, List.elem_iff.mpr hmem⟩
  · intro i hi
    simp only [generateTodayInstances, List.mem_map] at hi
    obtain ⟨u, _, rfl⟩ := hi
    exact ⟨rfl, rfl, mem_initCompletion_false u.subtasks⟩

theorem C3_generate_instances_witness :
    wTask ∈ [wTask, inactiveTask] ∧
    (∃ i ∈ generateTodayInstances [wTask, inactiveTask] ⟨6, by decide⟩,
      i.task = wTask) :=
  ⟨by decide,
   ((C3_generate_instances [wTask, inactiveTask] ⟨6, by decide⟩).2.1 wTask
      (by decide)).mpr ⟨rfl, by decide⟩⟩

/-- C7: the percentage guard. When the point total is positive the
percentage is the quotient of current by total points; otherwise —
including the empty instance list, whose total is 0 — it is 0. -/
theorem C7_percent_guard (insts : List TaskInstance) :
    (0 < (updateProgress insts).totalPoints →
      (updateProgress insts).percent =
        (updateProgress insts).currentPoints /
          ((updateProgress insts).totalPoints : Rat)) ∧
    (¬ 0 < (updateProgress insts).totalPoints →
      (updateProgress insts).percent = 0) ∧
    ((updateProgress ([] : List TaskInstance)).percent = 0 ∧
      (updateProgress ([] : List TaskInstance)).totalPoints = 0) := by
  refine ⟨?_, ?_, by constructor <;> rfl⟩
  · intro h
    have h' : 0 < (insts.foldl progressAccum ((0 : Rat), (0 : Int))).2 := h
    show (if 0 < (insts.foldl progressAccum ((0 : Rat), (0 : Int))).2 then _ else _) = _
    rw [if_pos h']
    rfl
  · intro h
    have h' : ¬ 0 < (insts.foldl progressAccum ((0 : Rat), (0 : Int))).2 := h
    show (if 0 < (insts.foldl progressAccum ((0 : Rat), (0 : Int))).2 then _ else _) = _
    rw [if_neg h']

theorem C7_percent_guard_witness :
    0 < (updateProgress [doneInst]).totalPoints ∧
    (updateProgress [doneInst]).percent =
      (updateProgress [doneInst]).currentPoints /
        ((updateProgress [doneInst]).totalPoints : Rat) :=
  ⟨by decide, (C7_percent_guard [doneInst]).1 (by decide)⟩

/-- The input of the C6 counterexample: a header line, a task row with
points field `-5`, and a subtask row with subPoints field `abc`. -/
def c6Csv : String := "h\nA,,-5,,,,all,,,,,TRUE\n,S,,abc,,,,,,,,"

/-- C6 counterexample: a points field that parses to a negative value
is kept negative (not a non-negative integer), and a non-empty but
unparsable subPoints field produces `NaN`, which is a defined value,
not `undefined`. -/
theorem C6_counterexample :
    (parseMasterTasks c6Csv).map Task.points = [-5] ∧
    (parseMasterTasks c6Csv).map (fun t => t.subtasks.map Subtask.subPoints) =
      [[some JsNum.nan]] ∧
    ¬ (0 ≤ (-5 : Int)) ∧ some JsNum.nan ≠ (none : Option JsNum) := by
  exact ⟨by decide, by decide, by decide, by decide⟩

/-- C6 amended: an unparsable or empty points field yields 0, but a
field parsing to a negative integer is kept as that negative value; an
empty subPoints field is left undefined, while a non-empty unparsable
one becomes `NaN` — defined, distinct from both undefined and 0, and
contributing 0 wherever it is summed via `|| 0`. -/
theorem C6_numeric_parsing :
    (∀ s, jsParseInt s = JsNum.nan → parsePoints s = 0) ∧
    (parsePoints "" = 0) ∧
    (parseSubPoints "" = none) ∧
    (∀ s, s ≠ "" → jsParseInt s = JsNum.nan →
      parseSubPoints s = some JsNum.nan) ∧
    (parsePoints "-5" = -5) ∧ (jsValOr0 (some JsNum.nan) = 0) := by
  refine ⟨?_, by decide, by decide, ?_, by decide, by decide⟩
  · intro s h
    rw [parsePoints, h]
    rfl
  · intro s hne h
    rw [parseSubPoints, if_neg hne, h]

theorem C6_numeric_parsing_witness :
    parsePoints "abc" = 0 ∧ parseSubPoints "abc" = some JsNum.nan :=
  ⟨C6_numeric_parsing.1 "abc" (by decide),
   C6_numeric_parsing.2.2.2.1 "abc" (by decide) (by decide)⟩

/-- The defined-subPoints accumulation as a mapped sum. -/
theorem foldl_if_add (subs : List Subtask) (flag : Subtask → Bool)
    (v : Subtask → Int) (e : Int) :
    subs.foldl (fun e sub => if flag sub then e + v sub else e) e =
      e + (subs.map (fun s => if flag s then v s else 0)).sum := by
  induction subs generalizing e with
  | nil => simp
  | cons s rest ih =>
    rw [List.foldl_cons]
    by_cases hf : flag s
    · rw [if_pos hf, ih]
      simp [hf, add_assoc]
    · rw [if_neg hf, ih]
      simp [hf]

/-- One `updateProgress` iteration adds exactly the claim's earned
contribution and the task's points. -/
theorem progressAccum_eq (c : Rat) (t : Int) (i : TaskInstance) :
    progressAccum (c, t) i = (c + claimEarned i, t + i.task.points) := by
  by_cases hc : i.completed
  · simp [progressAccum, claimEarned, hc]
  · by_cases hnil : i.task.subtasks = []
    · simp [progressAccum, claimEarned, hc, hnil]
    · have hlen : 0 < i.task.subtasks.length := List.length_pos.mpr hnil
      rw [progressAccum, claimEarned]
      simp only [hc, if_false, Bool.false_eq_true, if_neg hnil, hlen, if_true]
      refine congrArg (fun x => (c + x, t + i.task.points)) ?_
      by_cases hdef : i.task.subtasks.any (fun s => s.subPoints.isSome)
      · rw [earnedSubPoints, if_pos hdef, if_pos hdef]
        rw [foldl_if_add, zero_add]
        congr 1
        rw [Int.cast_list_sum, List.map_map]
        refine congrArg List.sum (List.map_congr_left (fun s _ => ?_))
        simp [apply_ite (fun n : Int => (n : Rat))]
      · rw [earnedSubPoints, if_neg hdef, if_pos hlen, if_neg hdef]

/-- The fold of `updateProgress`, with a general starting accumulator. -/
theorem foldl_progressAccum (insts : List TaskInstance) (c : Rat) (t : Int) :
    insts.foldl progressAccum (c, t) =
      (c + (insts.map claimEarned).sum,
       t + (insts.map (fun i => i.task.points)).sum) := by
  induction insts generalizing c t with
  | nil => simp
  | cons i rest ih =>
    rw [List.foldl_cons, progressAccum_eq, ih]
    simp [add_assoc]

/-- C1 (amended): `updateProgress` credits each instance with exactly
the claim's per-instance earned contribution — full points when
completed; the clamped sum of the numeric subPoints of checked
subtasks when some subtask defines subPoints; otherwise the clamped
product of the number of `true` entries of the completion record with
the equal split `points / subtask count`; and 0 for a subtask-less
uncompleted instance — while `totalPoints` sums `points` over all
instances regardless of completion. -/
theorem C1_aggregation (insts : List TaskInstance) :
    (updateProgress insts).currentPoints = (insts.map claimEarned).sum ∧
    (updateProgress insts).totalPoints =
      (insts.map (fun i => i.task.points)).sum := by
  constructor
  · show (insts.foldl progressAccum ((0 : Rat), (0 : Int))).1 = _
    rw [foldl_progressAccum]
    simp
  · show (insts.foldl progressAccum ((0 : Rat), (0 : Int))).2 = _
    rw [foldl_progressAccum]
    simp

/-- C1 counterexample: with two subtasks sharing one id (two equal
subtask names), the code's equal-split branch counts the single `true`
record entry once, while the claim's "count of completed subtasks"
counts both subtasks — 5 versus 10 earned points on a 10-point task. -/
theorem C1_counterexample :
    (updateProgress [dupInst]).currentPoints = 5 ∧
    ([dupInst].map claimEarnedOrig).sum = 10 ∧
    (5 : Rat) ≠ 10 := by
  refine ⟨?_, ?_, by norm_num⟩
  · show (0 : Rat) + min (earnedSubPoints dupInst) ((10 : Int) : Rat) = 5
    rw [earnedSubPoints]
    norm_num [dupInst, dupTask, dupSubA1, dupSubA2, trueCount]
  · norm_num [claimEarnedOrig, dupInst, dupTask, dupSubA1, dupSubA2, recGet]
    decide

/-- Appending no subtasks is the identity. -/
theorem addSubs_nil (t : Task) : addSubs t [] = t := by
  cases t
  simp [addSubs]

/-- Appending subtask batches composes. -/
theorem addSubs_append (t : Task) (s1 s2 : List Subtask) :
    addSubs (addSubs t s1) s2 = addSubs t (s1 ++ s2) := by
  cases t
  simp [addSubs]

/-- `addSubs` does not change the task's name. -/
theorem addSubs_name (t : Task) (subs : List Subtask) :
    (addSubs t subs).name = t.name := rfl

/-- A blank line is neither a task row nor a subtask row. -/
theorem not_rows_of_blank {l : String} (hb : jsTrim l = "") :
    isTaskRowB l = false ∧ isSubtaskRowB l = false := by
  constructor
  · simp [isTaskRowB, hb]
  · simp [isSubtaskRowB, hb]

/-- Row-kind booleans on a non-blank line with non-empty first column. -/
theorem taskRow_of_cols {l : String} (hb : ¬ jsTrim l = "")
    (h0 : ¬ colOf l 0 = "") : isTaskRowB l = true := by
  simp [isTaskRowB, hb, h0]

/-- Row-kind booleans on a non-blank line with empty first column. -/
theorem not_taskRow_of_col0 {l : String} (h0 : colOf l 0 = "") :
    isTaskRowB l = false := by
  simp [isTaskRowB, h0]

/-- A non-blank line with empty first and non-empty second column is a
subtask row. -/
theorem subtaskRow_of_cols {l : String} (hb : ¬ jsTrim l = "")
    (h0 : colOf l 0 = "") (h1 : ¬ colOf l 1 = "") : isSubtaskRowB l = true := by
  simp [isSubtaskRowB, hb, h0, h1]

/-- A line with empty first and second columns is not a subtask row. -/
theorem not_subtaskRow_of_cols {l : String} (h1 : colOf l 1 = "") :
    isSubtaskRowB l = false := by
  simp [isSubtaskRowB, h1]

/-- The `forEach` fold with a current task in context: the remaining
lines extend the current task with their leading subtask rows and then
contribute the tasks of the remaining task rows. -/
theorem foldl_parseStep_cur (lines : List String) (t : Task) (ts : List Task) :
    (lines.foldl parseStep (t :: ts)).reverse =
      ts.reverse ++ (addSubs t (subtasksFor t.name
        (lines.takeWhile (fun x => !isTaskRowB x))) :: specParse lines) := by
  induction lines generalizing t ts with
  | nil => simp [subtasksFor, specParse, addSubs_nil]
  | cons l rest ih =>
    rw [List.foldl_cons]
    by_cases hb : jsTrim l = ""
    · have hstep : parseStep (t :: ts) l = t :: ts := by rw [parseStep, if_pos hb]
      obtain ⟨htask, hsub⟩ := not_rows_of_blank hb
      rw [hstep, ih, List.takeWhile_cons, htask]
      simp only [Bool.not_false, if_true, specParse, htask, Bool.false_eq_true,
        if_false, subtasksFor, List.filterMap_cons, hsub]
    · by_cases h0 : colOf l 0 = ""
      · have htask := not_taskRow_of_col0 h0
        by_cases h1 : colOf l 1 = ""
        · have hstep : parseStep (t :: ts) l = t :: ts := by
            rw [parseStep, if_neg hb, if_neg (by simp [h0]), if_neg (by simp [h1])]
          have hsub := not_subtaskRow_of_cols h1
          rw [hstep, ih, List.takeWhile_cons, htask]
          simp only [Bool.not_false, if_true, specParse, htask, Bool.false_eq_true,
            if_false, subtasksFor, List.filterMap_cons, hsub]
        · have hstep : parseStep (t :: ts) l =
              addSubs t [mkSubtask t.name l] :: ts := by
            rw [parseStep, if_neg hb, if_neg (by simp [h0]), if_pos (by simp [h1])]
            rfl
          have hsub := subtaskRow_of_cols hb h0 h1
          rw [hstep, ih, addSubs_name, addSubs_append, List.takeWhile_cons, htask]
          simp only [Bool.not_false, if_true, specParse, htask, Bool.false_eq_true,
            if_false, subtasksFor, List.filterMap_cons, hsub, List.singleton_append]
      · have htask := taskRow_of_cols hb h0
        have hstep : parseStep (t :: ts) l = mkTask l :: t :: ts := by
          rw [parseStep, if_neg hb, if_pos (by simp [h0])]
        rw [hstep, ih, List.takeWhile_cons, htask]
        simp [specParse, htask, subtasksFor, addSubs_nil, List.reverse_cons,
          List.append_assoc]

/-- Before any task row, every line is skipped (a blank row, a
no-name row, or an orphan subtask row with no task to attach to). -/
theorem foldl_parseStep_nil (lines : List String) :
    (lines.foldl parseStep []).reverse = specParse lines := by
  induction lines with
  | nil => rfl
  | cons l rest ih =>
    rw [List.foldl_cons]
    by_cases hb : jsTrim l = ""
    · have hstep : parseStep [] l = [] := by rw [parseStep, if_pos hb]
      obtain ⟨htask, _⟩ := not_rows_of_blank hb
      rw [hstep, ih]
      simp [specParse, htask]
    · by_cases h0 : colOf l 0 = ""
      · have htask := not_taskRow_of_col0 h0
        have hstep : parseStep [] l = [] := by
          rw [parseStep, if_neg hb, if_neg (by simp [h0])]
          split <;> rfl
        rw [hstep, ih]
        simp [specParse, htask]
      · have htask := taskRow_of_cols hb h0
        have hstep : parseStep [] l = [mkTask l] := by
          rw [parseStep, if_neg hb, if_pos (by simp [h0])]
        rw [hstep, foldl_parseStep_cur rest (mkTask l) []]
        simp [specParse, htask]

/-- Names of the spec-side parse: one task per task row, in order,
named by the task-name column. -/
theorem specParse_names (lines : List String) :
    (specParse lines).map Task.name =
      (lines.filter isTaskRowB).map (fun l => colOf l 0) := by
  induction lines with
  | nil => rfl
  | cons l rest ih =>
    by_cases ht : isTaskRowB l
    · simp only [specParse, ht, if_true, List.filter_cons_of_pos ht,
        List.map_cons, addSubs_name]
      rw [ih]
      rfl
    · have ht' : isTaskRowB l = false := by simpa using ht
      simp only [specParse, ht', Bool.false_eq_true, if_false]
      rw [ih, List.filter_cons_of_neg (by simp [ht'] : ¬ isTaskRowB l = true)]

/-- C2: the parser produces exactly the structure the claim describes.
The parse equals the spec-side grouping — one Task per data row with a
non-empty task-name, in source order, each carrying as subtasks the
subtask rows between it and the next task row, while blank rows,
no-name rows and subtask rows before any task row are skipped without
aborting the parse — and in particular the task names are the
task-name columns of the task rows in order. -/
theorem C2_parse_structure (csv : String) :
    parseMasterTasks csv = specParse (dataLines csv) ∧
    (parseMasterTasks csv).map Task.name =
      ((dataLines csv).filter isTaskRowB).map (fun l => colOf l 0) := by
  refine ⟨?_, ?_⟩
  · rw [parseMasterTasks, foldl_parseStep_nil]
  · rw [parseMasterTasks, foldl_parseStep_nil, specParse_names]
